import Mathlib

/-!
# Verification of the cosanet collection core

A shallow embedding, in Lean 4, of the pure fragments of the cosanet
exporter: the `/proc/net` counter parsers (`procnet_2l_parser`,
`procnet_v6_parser`), the socket-state tally (`netstat`), the scrape
cache loop (`main.go`), the pod controller resolver
(`controller_resolver`) and the collector's emission logic (`collector`).

Go strings are modelled as `List Char` (named `Str`) in the parser
sections, so that the splitting functions (`strings.Fields`,
`strings.TrimSpace`, `strings.Index`, ...) can be reasoned about
structurally.  Go maps are modelled as association lists where `Set`
replaces an existing binding in place and otherwise appends; this keeps
insertion order observable but coincides with Go-map semantics on
lookups.  Fallible Go functions returning `(T, error)` are modelled with
`Except Unit T` (the error payload is never inspected by the program) or
`Option`.
-/

/-- Go strings, viewed as their character sequence. -/
abbrev Str := List Char

/-- Decidable equality for the `Except` results of fallible Go
functions. -/
instance {ε α : Type} [DecidableEq ε] [DecidableEq α] : DecidableEq (Except ε α) := by
  intro a b
  cases a <;> cases b
  case error.error e f => exact decidable_of_iff (e = f) (by simp)
  case ok.ok x y => exact decidable_of_iff (x = y) (by simp)
  all_goals exact isFalse (by simp)

/-- Association-list lookup (Go map read `m[k]`, comma-ok form). -/
def alookup {κ β : Type} [DecidableEq κ] (m : List (κ × β)) (k : κ) : Option β :=
  match m with
  | [] => none
  | (k', v) :: rest => if k' = k then some v else alookup rest k

/-- Go map write `m[k] = v`: replace the binding in place if the key is
present, otherwise add a binding. -/
def ainsert {κ β : Type} [DecidableEq κ] (m : List (κ × β)) (k : κ) (v : β) : List (κ × β) :=
  match m with
  | [] => [(k, v)]
  | (k', v') :: rest => if k' = k then (k', v) :: rest else (k', v') :: ainsert rest k v

/-- Go map delete `delete(m, k)`. -/
def adelete {κ β : Type} [DecidableEq κ] (m : List (κ × β)) (k : κ) : List (κ × β) :=
  match m with
  | [] => []
  | (k', v') :: rest => if k' = k then rest else (k', v') :: adelete rest k

/-- The keys of an association list. -/
def akeys {κ β : Type} (m : List (κ × β)) : List κ := m.map (·.1)

/-- Whitespace test used by the Go `strings` splitting functions
(`unicode.IsSpace` restricted to the characters that occur in
`/proc/net` files). -/
def isWS (c : Char) : Bool := c.isWhitespace

/-- The word-splitting loop behind `goFields`, carrying the current
word reversed. -/
def goFieldsAux (cur : Str) : Str → List Str
  | [] => if cur = [] then [] else [cur.reverse]
  | c :: rest =>
    if isWS c then
      if cur = [] then goFieldsAux [] rest
      else cur.reverse :: goFieldsAux [] rest
    else goFieldsAux (c :: cur) rest

/-- `strings.Fields`: split around runs of whitespace, dropping empty
fields. -/
def goFields (s : Str) : List Str := goFieldsAux [] s

/-- Join tokens with single spaces; the canonical text layout whose
`goFields` image is the token list itself. -/
def unwords : List Str → Str
  | [] => []
  | [t] => t
  | t :: ts => t ++ ' ' :: unwords ts

/-- `strings.TrimSuffix s suf`. -/
def trimSuffix (s suf : Str) : Str :=
  if suf.isSuffixOf s then s.take (s.length - suf.length) else s

/-- `strings.TrimSpace`: drop leading and trailing whitespace. -/
def goTrim (s : Str) : Str :=
  ((s.dropWhile isWS).reverse.dropWhile isWS).reverse

/-- Numeric value of a decimal digit character. -/
def digToNat (c : Char) : Nat := c.toNat - '0'.toNat

/-- Decimal digit run parser: `some n` iff the string is a non-empty
run of decimal digits with value `n`. -/
def parseDigits? (s : Str) : Option Nat :=
  if s ≠ [] ∧ s.all (fun c => c.isDigit) then
    some (s.foldl (fun a c => a * 10 + digToNat c) 0)
  else none

/-- `strconv.Atoi`: an optional sign followed by a non-empty digit run.
Go's 64-bit range check is not modelled; the round-trip claims restrict
to in-range values. -/
def atoi? (s : Str) : Option Int :=
  match s with
  | [] => none
  | c :: rest =>
    if c = '-' then (parseDigits? rest).map (fun n => -(n : Int))
    else if c = '+' then (parseDigits? rest).map (fun n => (n : Int))
    else (parseDigits? (c :: rest)).map (fun n => (n : Int))

/-- The decimal digits of `n`, least significant first, with enough
fuel (any `fuel` with `n < 10 ^ fuel` gives the digits). -/
def natDigitsRev (fuel n : Nat) : List Char :=
  match fuel with
  | 0 => []
  | fuel + 1 =>
    if n < 10 then [Nat.digitChar n]
    else Nat.digitChar (n % 10) :: natDigitsRev fuel (n / 10)

/-- Decimal rendering of a natural number. -/
def natStr (n : Nat) : Str := (natDigitsRev (n + 1) n).reverse

/-- Decimal rendering of an integer (the layout `strconv.Itoa`
produces). -/
def intStr : Int → Str
  | Int.ofNat n => natStr n
  | Int.negSucc m => '-' :: natStr (m + 1)

/-- Hexadecimal digit test (`strconv.ParseUint` with base 16). -/
def isHexDigitChar (c : Char) : Bool :=
  c.isDigit || ('a' ≤ c && c ≤ 'f') || ('A' ≤ c && c ≤ 'F')

/-- Numeric value of a hexadecimal digit character. -/
def hexVal (c : Char) : Nat :=
  if c.isDigit then c.toNat - '0'.toNat
  else if 'a' ≤ c && c ≤ 'f' then c.toNat - 'a'.toNat + 10
  else c.toNat - 'A'.toNat + 10

/-- `strconv.ParseUint(s, 16, 8)`: a non-empty run of hex digits whose
value fits in 8 bits; anything else (including an in-syntax value above
`0xFF`) is an error. -/
def parseHexU8 (s : Str) : Option Nat :=
  if s ≠ [] ∧ s.all isHexDigitChar then
    let v := s.foldl (fun a c => a * 16 + hexVal c) 0
    if v ≤ 255 then some v else none
  else none

/-! ## Two-line `/proc/net` parser (`internal/procnet_2l_parser`) -/

/-- A parsed section: counter name to value (Go `map[string]int`). -/
abbrev Counters := List (Str × Int)

/-- A parsed counter map: section to counters
(Go `map[string]map[string]int`). -/
abbrev CounterMap := List (Str × Counters)

/-- The value loop of `parseSectionCouple`: walk the positions present
in both the header tail and the value tail, keep a counter whenever its
value parses with `strconv.Atoi`, skip it otherwise. -/
def buildCounters (ps : List (Str × Str)) : Counters :=
  ps.foldl
    (fun acc p =>
      match atoi? p.2 with
      | some v => ainsert acc p.1 v
      | none => acc)
    []

/-- `parseSectionCouple`: parse a header line and a value line into a
section name and its counters.  Mismatching or empty leading fields are
an error. -/
def parseSectionCouple (headerLine valueLine : Str) : Except Unit (Str × Counters) :=
  match goFields headerLine, goFields valueLine with
  | [], _ => .error ()
  | _, [] => .error ()
  | h0 :: hrest, v0 :: vrest =>
    if h0 = v0 then
      .ok (trimSuffix h0 [':'], buildCounters (hrest.zip vrest))
    else .error ()

/-- The scanner loop of `parse2LFromScanner`, with the result map built
so far as accumulator: lines are consumed two at a time, a trailing
header with no value line stops parsing, and a malformed pair is skipped
(both its lines consumed). -/
def parse2LAux (acc : CounterMap) : List Str → CounterMap
  | [] => acc
  | [_] => acc
  | h :: v :: rest =>
    match parseSectionCouple h v with
    | .ok (sec, cs) => parse2LAux (ainsert acc sec cs) rest
    | .error _ => parse2LAux acc rest

/-- `parse2LFromScanner`: parse the two-line `/proc/net` layout
(`/proc/net/snmp`, `/proc/net/netstat`), the input given as its list of
lines. -/
def parse2LFromScanner (lines : List Str) : CounterMap := parse2LAux [] lines

/-! ## Six-separated `/proc/net/snmp6` parser (`internal/procnet_v6_parser`) -/

/-- `strings.Index(line, "6")`, packaged as the split it induces:
`some (pre, post)` where `pre` ends with the first `'6'` of the line and
`post` is everything after it; `none` when the line has no `'6'`. -/
def splitAt6 : Str → Option (Str × Str)
  | [] => none
  | c :: rest =>
    if c = '6' then some ([c], rest)
    else (splitAt6 rest).map (fun p => (c :: p.1, p.2))

/-- `parseSnmp6Line`: split a `/proc/net/snmp6` line at the first `'6'`
(kept on the left) into section and remainder; the remainder must be
exactly a counter name and an integer value. -/
def parseSnmp6Line (line : Str) : Except Unit (Str × Str × Int) :=
  match splitAt6 line with
  | none => .error ()
  | some (pre, post) =>
    if post = [] then .error ()
    else
      match goFields (goTrim post) with
      | [counterName, vstr] =>
        match atoi? vstr with
        | some v => .ok (goTrim pre, counterName, v)
        | none => .error ()
      | _ => .error ()

/-- The nested-map write `result[section][counter] = val` of
`parseV6FromScanner`, creating the section on first use. -/
def insertV6 (m : CounterMap) (sec cnt : Str) (v : Int) : CounterMap :=
  match alookup m sec with
  | some cs => ainsert m sec (ainsert cs cnt v)
  | none => m ++ [(sec, ainsert [] cnt v)]

/-- One iteration of the `parseV6FromScanner` scanner loop: parse the
line, skip it on error. -/
def parseV6Step (m : CounterMap) (l : Str) : CounterMap :=
  match parseSnmp6Line l with
  | .ok (sec, cnt, v) => insertV6 m sec cnt v
  | .error _ => m

/-- `parseV6FromScanner`: parse the `/proc/net/snmp6` layout, the input
given as its list of lines; malformed lines are skipped. -/
def parseV6FromScanner (lines : List Str) : CounterMap :=
  lines.foldl parseV6Step []

/-! ## Renderers (modelled from the spec)

The repository has no renderer; the spec's round-trip property
(§8, "parse(render(m)) = m") implicitly defines rendering as the
`/proc/net` text layout each parser consumes. -/

/-- Modelled from the spec: render a `CounterMap` in the two-line
`/proc/net` layout — for each section a `Section: Name1 Name2 …` header
line followed by a `Section: Val1 Val2 …` value line. -/
def render2L (m : CounterMap) : List Str :=
  m.flatMap
    (fun s =>
      [unwords ((s.1 ++ [':']) :: s.2.map (·.1)),
       unwords ((s.1 ++ [':']) :: s.2.map (fun c => intStr c.2))])

/-- Modelled from the spec: render a `CounterMap` in the
`/proc/net/snmp6` layout — one `SectionCounter Value` line per counter,
the section and counter names concatenated without punctuation. -/
def renderV6 (m : CounterMap) : List Str :=
  m.flatMap (fun s => s.2.map (fun c => s.1 ++ c.1 ++ ' ' :: intStr c.2))

/-- A well-formed `/proc/net` name: non-empty and whitespace-free. -/
def validName (s : Str) : Prop := s ≠ [] ∧ ∀ c ∈ s, ¬ isWS c

instance (s : Str) : Decidable (validName s) := by
  unfold validName; infer_instance

/-- A `CounterMap` that faithfully represents a Go
`map[string]map[string]int` with well-formed names: keys are distinct at
both levels and every name is non-empty and whitespace-free. -/
def valid2L (m : CounterMap) : Prop :=
  (akeys m).Nodup ∧
  ∀ s ∈ m, validName s.1 ∧ (akeys s.2).Nodup ∧ ∀ c ∈ s.2, validName c.1

instance (m : CounterMap) : Decidable (valid2L m) := by
  unfold valid2L; infer_instance

/-- The additional conditions under which the six-separated layout can
be re-parsed: every section is non-empty and carries exactly one `'6'`,
as its final character. -/
def validV6 (m : CounterMap) : Prop :=
  valid2L m ∧
  ∀ s ∈ m, s.2 ≠ [] ∧ s.1.getLast? = some '6' ∧ '6' ∉ s.1.dropLast

instance (m : CounterMap) : Decidable (validV6 m) := by
  unfold validV6; infer_instance

/-! ## Socket-state tally (`internal/netstat`) -/

/-- `skStates`: the fixed socket-state name table, indexed by the state
code; index 0 is `UNKNOWN`, the table stops at 11 (`CLOSING`). -/
def skStates : List Str :=
  ["UNKNOWN", "ESTABLISHED", "SYN_SENT", "SYN_RECV", "FIN_WAIT1", "FIN_WAIT2",
   "TIME_WAIT", "CLOSE", "CLOSE_WAIT", "LAST_ACK", "LISTEN", "CLOSING"].map
    String.toList

/-- A socket-state tally (Go `SocketStats = map[string]int`): state name
to count. -/
abbrev SocketStats := List (Str × Nat)

/-- Increment a tally entry (`stats[state]++`). -/
def bumpStat (stats : SocketStats) (state : Str) : SocketStats :=
  match alookup stats state with
  | some n => ainsert stats state (n + 1)
  | none => stats ++ [(state, 1)]

/-- The outcome of `parseSocktab`: a tally, a returned error (short
field count or a state field that is not 8-bit hex), or a Go panic —
`skStates[s]` indexes out of range for state codes 12–255. -/
inductive SockResult
  | ok (stats : SocketStats)
  | err
  | panics
deriving DecidableEq

/-- The per-line loop of `parseSocktab` over the lines after the
discarded title line: strip from the first `'#'`, split into fields,
fail on fewer than 12 fields, parse field 3 as 8-bit hex, look its name
up in `skStates` and count it. -/
def parseSocktabLines (stats : SocketStats) : List Str → SockResult
  | [] => .ok stats
  | l :: rest =>
    let line := l.takeWhile (fun c => c ≠ '#')
    let fs := goFields line
    if fs.length < 12 then .err
    else
      match (fs.get? 3).bind parseHexU8 with
      | none => .err
      | some u =>
        match skStates.get? u with
        | none => .panics
        | some state => parseSocktabLines (bumpStat stats state) rest

/-- `parseSocktab`: tally a socket table, the input given as its list of
lines; the first line (the title) is discarded unparsed. -/
def parseSocktab : List Str → SockResult
  | [] => .ok []
  | _ :: rest => parseSocktabLines [] rest

/-- The count `parseSocktab` assigns to a state name; `none` when the
parse errored or panicked, and 0 for a state never seen. -/
def SockResult.count (r : SockResult) (state : Str) : Option Nat :=
  match r with
  | .ok stats => some ((alookup stats state).getD 0)
  | .err => none
  | .panics => none

/-- Field 3 of a tallied line, parsed as 8-bit hex, after comment
stripping. -/
def lineCode (l : Str) : Option Nat :=
  ((goFields (l.takeWhile (fun c => c ≠ '#'))).get? 3).bind parseHexU8

/-- The state name a tallied line contributes, via the `skStates`
table. -/
def lineStateName (l : Str) : Option Str :=
  (lineCode l).bind (fun u => skStates.get? u)

/-- A line the tally loop accepts without error or panic: at least 12
fields and a state code in the `skStates` table (0–11). -/
def goodSockLine (l : Str) : Prop :=
  12 ≤ (goFields (l.takeWhile (fun c => c ≠ '#'))).length ∧
  ∃ u, lineCode l = some u ∧ u ≤ 11

instance (l : Str) : Decidable (goodSockLine l) :=
  decidable_of_iff
    (12 ≤ (goFields (l.takeWhile (fun c => c ≠ '#'))).length ∧ ∃ u ∈ lineCode l, u ≤ 11)
    Iff.rfl

/-! ## Scrape cache loop (`main.go`) -/

/-- The scrape-cache state of the `main` loop: the wall-clock instant
the last collection finished and the cached sample vector.  Time is
modelled as `Nat` (the Go zero time is 0). -/
structure CacheState (α : Type) where
  cacheTimestamp : Nat
  metricsCache : List α

/-- One iteration of the request loop in `main`: on
`time.Since(cacheTimestamp) > CacheDuration || len(metricsCache) == 0`
run the worker collection (modelled as instantaneous, producing
`collect`) and install it; then replay the cache to the requester.
Returns the new state, the replayed vector, and whether the worker
ran. -/
def cacheStep {α : Type} (dur : Nat) (collect : List α) (st : CacheState α) (now : Nat) :
    CacheState α × List α × Bool :=
  if now - st.cacheTimestamp > dur || st.metricsCache.isEmpty then
    (⟨now, collect⟩, collect, true)
  else (st, st.metricsCache, false)

/-- Run the request loop over a list of request arrival times, returning
the final state, the vector replayed to each request, and the number of
worker collections. -/
def cacheRun {α : Type} (dur : Nat) (collect : List α) (st : CacheState α) :
    List Nat → CacheState α × List (List α) × Nat
  | [] => (st, [], 0)
  | now :: rest =>
    let s := cacheStep dur collect st now
    let r := cacheRun dur collect s.1 rest
    (r.1, s.2.1 :: r.2.1, (if s.2.2 then 1 else 0) + r.2.2)

/-! ## Controller resolver (`internal/controller_resolver`) -/

/-- `metav1.OwnerReference`, restricted to the fields the resolver
reads. -/
structure OwnerReference where
  uid : String
  apiVersion : String
  kind : String
  name : String
  controller : Option Bool
deriving DecidableEq

/-- `corev1.Pod`, restricted to the fields the resolver and its informer
handlers read (`nspace` stands for the pod's Kubernetes namespace). -/
structure K8sPod where
  uid : String
  name : String
  nspace : String
  ownerReferences : List OwnerReference
  nodeName : String
  phase : String
  resourceVersion : String
deriving DecidableEq

/-- `PodControllerRef`: a compact reference to the controlling object of
a Pod (`nspace` stands for the Kubernetes namespace field). -/
structure PodControllerRef where
  uid : String
  apiVersion : String
  kind : String
  nspace : String
  name : String
deriving DecidableEq

/-- `orphanSentinel`. -/
def orphanSentinel : String := "ORPHAN"

/-- The two LRU caches of the `resolver` struct, as maps (eviction
plays no role in the claims settled here). -/
structure ResolverState where
  podCache : List (String × PodControllerRef)
  parentCache : List (String × PodControllerRef)
deriving DecidableEq

/-- The Kubernetes client reads the resolver performs:
`ReplicaSets(namespace).Get(name)` and `Jobs(namespace).Get(name)`,
abstracted as kind → namespace → name → owner references of the fetched
object (or an API error). -/
abbrev K8sClient := String → String → String → Except Unit (List OwnerReference)

/-- `getInt`: a zero value falls back to the default. -/
def getInt (val fallback : Nat) : Nat := if val = 0 then fallback else val

/-- `ResolverOptions`. -/
structure ResolverOptions where
  parentCacheCapacity : Nat
  podCacheCapacity : Nat
  nodename : String
deriving DecidableEq

/-- The capacity `NewResolver` hands to the parent (`owner-to-ref`) LRU
cache: `getInt(opts.PodCacheCapacity, 750)`. -/
def newResolverParentCapacity (opts : ResolverOptions) : Nat :=
  getInt opts.podCacheCapacity 750

/-- The capacity `NewResolver` hands to the pod (`pod-to-ref`) LRU
cache: `getInt(opts.PodCacheCapacity, 500)`. -/
def newResolverPodCapacity (opts : ResolverOptions) : Nat :=
  getInt opts.podCacheCapacity 500

/-- `generateCacheKey`. -/
def generateCacheKey (nspace : String) (ownerRef : OwnerReference) : String :=
  "owner:" ++ ownerRef.uid ++ "=" ++ ownerRef.apiVersion ++ "=" ++ ownerRef.kind ++
    "=" ++ nspace ++ "=" ++ ownerRef.name

/-- `generatePodCacheKeyFromUID`. -/
def generatePodCacheKeyFromUID (uid : String) : String := "pod:" ++ uid

/-- `generatePodCacheKey`. -/
def generatePodCacheKey (pod : K8sPod) : String :=
  generatePodCacheKeyFromUID pod.uid

/-- `getControllerOwnerReference`: the first owner reference whose
controller flag is true, otherwise the first reference.  (The Go code
indexes `orefs[0]`; both call sites guarantee a non-empty list, so the
empty case returns a dummy.) -/
def getControllerOwnerReference (orefs : List OwnerReference) : OwnerReference :=
  match orefs.find? (fun r => r.controller = some true) with
  | some r => r
  | none => orefs.headD ⟨"", "", "", "", none⟩

/-- `resolver.getParentDetail`: consult the parent cache; on a miss,
fetch a `ReplicaSet`/`Job` and walk to its controlling owner (falling
back to the fetched object itself when it has no owner), or build the
reference directly for any other kind; store the result in the parent
cache.  An API error leaves the state unchanged. -/
def getParentDetail (client : K8sClient) (st : ResolverState) (nspace : String)
    (ownerRef : OwnerReference) : Except Unit PodControllerRef × ResolverState :=
  let cacheKey := generateCacheKey nspace ownerRef
  match alookup st.parentCache cacheKey with
  | some cached => (.ok cached, st)
  | none =>
    match ownerRef.kind with
    | "ReplicaSet" =>
      match client "ReplicaSet" nspace ownerRef.name with
      | .error e => (.error e, st)
      | .ok parent =>
        let result :=
          if parent = [] then
            PodControllerRef.mk ownerRef.uid ownerRef.apiVersion ownerRef.kind nspace
              ownerRef.name
          else
            let controlling := getControllerOwnerReference parent
            PodControllerRef.mk controlling.uid controlling.apiVersion controlling.kind
              nspace controlling.name
        (.ok result, { st with parentCache := ainsert st.parentCache cacheKey result })
    | "Job" =>
      match client "Job" nspace ownerRef.name with
      | .error e => (.error e, st)
      | .ok parent =>
        let result :=
          if parent = [] then
            PodControllerRef.mk ownerRef.uid ownerRef.apiVersion ownerRef.kind nspace
              ownerRef.name
          else
            let controlling := getControllerOwnerReference parent
            PodControllerRef.mk controlling.uid controlling.apiVersion controlling.kind
              nspace controlling.name
        (.ok result, { st with parentCache := ainsert st.parentCache cacheKey result })
    | _ =>
      let res :=
        PodControllerRef.mk ownerRef.uid ownerRef.apiVersion ownerRef.kind nspace
          ownerRef.name
      (.ok res, { st with parentCache := ainsert st.parentCache cacheKey res })

/-- `resolver.ResolvePodControllerRef` (`nil` pods modelled as `none`):
serve from the pod cache; return the `ORPHAN` sentinel — uncached — for
a pod without owner references; otherwise dispatch on the controlling
owner's kind, caching the final answer in the pod cache. -/
def ResolvePodControllerRef (client : K8sClient) (st : ResolverState)
    (pod : Option K8sPod) : Except Unit PodControllerRef × ResolverState :=
  match pod with
  | none => (.error (), st)
  | some pod =>
    let podKey := generatePodCacheKey pod
    match alookup st.podCache podKey with
    | some cached => (.ok cached, st)
    | none =>
      let nspace := pod.nspace
      let orefs := pod.ownerReferences
      if orefs = [] then
        (.ok (PodControllerRef.mk orphanSentinel orphanSentinel orphanSentinel nspace
          orphanSentinel), st)
      else
        -- second (unreachable) cache check in the source, kept verbatim
        match alookup st.podCache podKey with
        | some res => (.ok res, st)
        | none =>
          let ownerRef := getControllerOwnerReference orefs
          let resStep : Except Unit PodControllerRef × ResolverState :=
            match ownerRef.kind with
            | "ReplicaSet" => getParentDetail client st nspace ownerRef
            | "Job" => getParentDetail client st nspace ownerRef
            | "StatefulSet" =>
              (.ok (PodControllerRef.mk ownerRef.uid ownerRef.apiVersion ownerRef.kind
                nspace ownerRef.name), st)
            | "DaemonSet" =>
              (.ok (PodControllerRef.mk ownerRef.uid ownerRef.apiVersion ownerRef.kind
                nspace ownerRef.name), st)
            | "Deployment" =>
              (.ok (PodControllerRef.mk ownerRef.uid ownerRef.apiVersion ownerRef.kind
                nspace ownerRef.name), st)
            | "CronJob" =>
              (.ok (PodControllerRef.mk ownerRef.uid ownerRef.apiVersion ownerRef.kind
                nspace ownerRef.name), st)
            | "Node" =>
              (.ok (PodControllerRef.mk ownerRef.uid ownerRef.apiVersion ownerRef.kind
                "" ownerRef.name), st)
            | _ => getParentDetail client st nspace ownerRef
          match resStep with
          | (.error e, _) => (.error e, st)
          | (.ok res, st') =>
            (.ok res, { st' with podCache := ainsert st'.podCache podKey res })

/-- `resolver.RemovePodControllerRef`. -/
def RemovePodControllerRef (st : ResolverState) (pod : Option K8sPod) : ResolverState :=
  match pod with
  | none => st
  | some pod => { st with podCache := adelete st.podCache (generatePodCacheKey pod) }

/-- The decision of the informer's `AddFunc` handler in `NewResolver`:
`true` iff the handler goes on to invoke `ResolvePodControllerRef` for
the added pod.  `allNodes := opts.Nodename != ""` is taken verbatim from
the source. -/
def addEventResolves (nodename : String) (pod : K8sPod) : Bool :=
  let allNodes := nodename ≠ ""
  if pod.phase ≠ "Running" ∧ pod.phase ≠ "Pending" then false
  else if (¬allNodes ∧ pod.nodeName ≠ nodename) ∨ pod.nodeName = "" then false
  else true

/-- The decision of the informer's `UpdateFunc` handler in
`NewResolver`: `true` iff the handler invokes `ResolvePodControllerRef`
for the updated pod. -/
def updateEventResolves (nodename : String) (oldPod pod : K8sPod) : Bool :=
  let allNodes := nodename ≠ ""
  if pod.phase ≠ "Running" ∧ pod.phase ≠ "Pending" then false
  else if oldPod.resourceVersion ≠ pod.resourceVersion then
    let podHasJustBeenAssigned := oldPod.nodeName = "" ∧ pod.nodeName ≠ ""
    podHasJustBeenAssigned ∧ (pod.nodeName = nodename ∨ allNodes)
  else false

/-! ## Collector (`internal/collector`) -/

/-- `strings.Split(s, ",")` (separator a single comma). -/
def splitComma (s : String) : List String :=
  ((s.toList.splitOn ',').map fun cs => String.mk cs)

/-- `PodInfo` (`nspace` stands for the pod's Kubernetes namespace). -/
structure PodInfo where
  pid : Int
  name : String
  nspace : String
  netNSPath : String
  netNSName : String
deriving DecidableEq

/-- One emitted metric sample (`prometheus.MustNewConstMetric` call):
descriptor name, ordered label names, ordered label values, and the
value.  All values the collector emits are integral. -/
structure Sample where
  name : String
  labelNames : List String
  labelValues : List String
  value : Int
deriving DecidableEq

/-- A socket tally keyed by Go strings, as the collector consumes it. -/
abbrev SockStats := List (String × Nat)

/-- `CosanetCollectorOptions`, restricted to what the emission logic
reads. -/
structure CosanetCollectorOptions where
  collectHostEnabled : Bool
  conntrackEnabled : Bool
  snmpEnabled : Bool
  netstatEnabled : Bool
  sockProtoEnabled : Bool
  sockProtoProtos : String

/-- The `CosanetCollector` configuration: node name, options, and the
three compiled regular expressions, abstracted as predicates. -/
structure CosanetCollector where
  nodename : String
  options : CosanetCollectorOptions
  podFilter : String → Bool
  snmpMetricFilter : String → Bool
  netstatMetricFilter : String → Bool

/-- The in-namespace environment one `collectStatsInNETNS` call reads:
the conntrack global statistics and, for each `/proc/net` file, the
result of opening and parsing it.  `sockv4`/`sockv6` are keyed by the
protocol name and hold the outcome of `parseSockTabFile` on
`/proc/net/<proto>` and `/proc/net/<proto>6`; errors are per-table.  The
counter maps hold the (error-discarding) results of `Parse2LFile` and
`ParseV6File`. -/
structure NetNSEnv where
  conntrackEntries : Nat
  conntrackMaxEntries : Nat
  sockv4 : String → Except Unit SockStats
  sockv6 : String → Except Unit SockStats
  snmp : List (String × List (String × Int))
  snmp6 : List (String × List (String × Int))
  netstat : List (String × List (String × Int))

/-- The four standard label names. -/
def standardLabels : List String :=
  ["cosanet_node", "cosanet_pod", "cosanet_namespace", "cosanet_netnsname"]

/-- The six socket-state label names. -/
def sockLabels : List String :=
  standardLabels ++ ["cosanet_state", "cosanet_ipversion"]

/-- One socket-state sample of `collectAndEmitSockStats`. -/
def mkSockSample (c : CosanetCollector) (info : PodInfo) (socktype state ipversion : String)
    (value : Nat) : Sample :=
  { name := "cosanet_proc_net_" ++ socktype
    labelNames := sockLabels
    labelValues := [c.nodename, info.name, info.nspace, info.netNSName, state, ipversion]
    value := (value : Int) }

/-- `collectAndEmitSockStats`: select the v4/v6 table readers for the
protocol (an unrecognized protocol is an error); read the v4 table,
returning its error with nothing emitted on failure; then the v6 table,
likewise; then emit one sample per (state, ip-version).  Returns the
emitted samples alongside the Go return value. -/
def collectAndEmitSockStats (c : CosanetCollector) (env : NetNSEnv) (info : PodInfo)
    (socktype : String) : List Sample × Except Unit (SockStats × SockStats) :=
  if socktype = "tcp" ∨ socktype = "udp" ∨ socktype = "icmp" ∨ socktype = "udplite" ∨
      socktype = "raw" then
    match env.sockv4 socktype with
    | .error e => ([], .error e)
    | .ok statsv4 =>
      match env.sockv6 socktype with
      | .error e => ([], .error e)
      | .ok statsv6 =>
        (statsv4.map (fun p => mkSockSample c info socktype p.1 "ipv4" p.2) ++
          statsv6.map (fun p => mkSockSample c info socktype p.1 "ipv6" p.2),
         .ok (statsv4, statsv6))
  else ([], .error ())

/-- `publishProcNet`: emit one sample per `(section, counter)` pair
whose `section_counter` string passes the metric filter. -/
def publishProcNet (c : CosanetCollector) (source : String)
    (stats : List (String × List (String × Int))) (info : PodInfo)
    (filter : String → Bool) : List Sample :=
  stats.flatMap fun s =>
    s.2.filterMap fun m =>
      if filter (s.1 ++ "_" ++ m.1) then
        some
          { name := "cosanet_proc_net_" ++ source ++ "_" ++ s.1 ++ "_" ++ m.1
            labelNames := standardLabels
            labelValues := [c.nodename, info.name, info.nspace, info.netNSName]
            value := m.2 }
      else none

/-- The fixed protocol iteration order of the socket-stats loop. -/
def sockProtoOrder : List String := ["tcp", "udp", "icmp", "udplite", "raw"]

/-- `collectStatsInNETNS`: the samples one in-namespace collection block
emits for a sandbox — conntrack (when enabled), socket-state tallies for
the configured protocols (when enabled; per-protocol errors are
discarded by the caller loop), then the filtered snmp, snmp6 and netstat
counters. -/
def collectStatsInNETNS (c : CosanetCollector) (env : NetNSEnv) (info : PodInfo) :
    List Sample :=
  (if c.options.conntrackEnabled then
    [{ name := "cosanet_conntrack_curr"
       labelNames := standardLabels
       labelValues := [c.nodename, info.name, info.nspace, info.netNSName]
       value := (env.conntrackEntries : Int) },
     { name := "cosanet_conntrack_max"
       labelNames := standardLabels
       labelValues := [c.nodename, info.name, info.nspace, info.netNSName]
       value := (env.conntrackMaxEntries : Int) }]
  else []) ++
  (if c.options.sockProtoEnabled then
    (sockProtoOrder.filter (fun p => (splitComma c.options.sockProtoProtos).contains p)).flatMap
      (fun p => (collectAndEmitSockStats c env info p).1)
  else []) ++
  (if c.options.snmpEnabled then
    publishProcNet c "snmp" env.snmp info c.snmpMetricFilter ++
      publishProcNet c "snmp6" env.snmp6 info c.snmpMetricFilter
  else []) ++
  (if c.options.netstatEnabled then
    publishProcNet c "netstat" env.netstat info c.netstatMetricFilter
  else [])

/-- The host pseudo-sandbox record `CollectFromMainThread` synthesizes
when host collection is enabled: only the namespace and the two
network-namespace fields are set; `PID` and `Name` keep their Go zero
values. -/
def hostPodInfo : PodInfo :=
  { pid := 0, name := "", nspace := "HOST", netNSPath := "HOST", netNSName := "HOST" }

/-! ## Infrastructure lemmas: tokens, digits, association lists -/

theorem goFieldsAux_word (t : Str) (ht : ∀ c ∈ t, ¬ isWS c) (cur rest : Str) :
    goFieldsAux cur (t ++ rest) = goFieldsAux (t.reverse ++ cur) rest := by
  induction t generalizing cur with
  | nil => simp
  | cons c t ih =>
    have hc : isWS c = false := by
      simpa using ht c (by simp)
    show goFieldsAux cur (c :: (t ++ rest)) = _
    rw [show goFieldsAux cur (c :: (t ++ rest)) =
        (if isWS c then
          (if cur = [] then goFieldsAux [] (t ++ rest)
           else cur.reverse :: goFieldsAux [] (t ++ rest))
         else goFieldsAux (c :: cur) (t ++ rest)) from rfl]
    rw [hc]
    simp only [Bool.false_eq_true, if_false]
    rw [ih (fun d hd => ht d (List.mem_cons_of_mem _ hd)) (c :: cur)]
    simp

theorem goFieldsAux_token (t : Str) (hne : t ≠ []) (ht : ∀ c ∈ t, ¬ isWS c) :
    goFieldsAux [] t = [t] := by
  have h1 := goFieldsAux_word t ht [] []
  rw [List.append_nil] at h1
  rw [h1, List.append_nil]
  have hrev : t.reverse ≠ [] := by simpa using hne
  simp [goFieldsAux, hrev]

theorem goFields_unwords (ts : List Str) (h : ∀ t ∈ ts, validName t) :
    goFields (unwords ts) = ts := by
  induction ts with
  | nil => rfl
  | cons t ts ih =>
    obtain ⟨hne, hws⟩ := h t (by simp)
    cases ts with
    | nil => exact goFieldsAux_token t hne hws
    | cons t' ts' =>
      show goFieldsAux [] (t ++ ' ' :: unwords (t' :: ts')) = t :: t' :: ts'
      rw [goFieldsAux_word t hws, List.append_nil]
      have hrev : t.reverse ≠ [] := by simpa using hne
      rw [show goFieldsAux t.reverse (' ' :: unwords (t' :: ts')) =
          (if isWS ' ' then
            (if t.reverse = [] then goFieldsAux [] (unwords (t' :: ts'))
             else t.reverse.reverse :: goFieldsAux [] (unwords (t' :: ts')))
           else goFieldsAux (' ' :: t.reverse) (unwords (t' :: ts'))) from rfl]
      rw [if_pos (by decide : isWS ' ' = true), if_neg hrev, List.reverse_reverse]
      exact congrArg _ (ih (fun u hu => h u (List.mem_cons_of_mem _ hu)))

theorem trimSuffix_append (s : Str) (c : Char) : trimSuffix (s ++ [c]) [c] = s := by
  unfold trimSuffix
  rw [if_pos]
  · simp
  · show List.isSuffixOf [c] (s ++ [c]) = true
    simp [List.isSuffixOf, List.isPrefixOf]

theorem digitChar_isDigit {n : Nat} (h : n < 10) : (Nat.digitChar n).isDigit = true := by
  interval_cases n <;> decide

theorem digToNat_digitChar {n : Nat} (h : n < 10) : digToNat (Nat.digitChar n) = n := by
  interval_cases n <;> decide

theorem natDigitsRev_spec (fuel : Nat) :
    ∀ n, 0 < fuel → n < 10 ^ fuel →
      (∀ c ∈ natDigitsRev fuel n, c.isDigit = true) ∧ natDigitsRev fuel n ≠ [] ∧
        (natDigitsRev fuel n).foldr (fun c a => a * 10 + digToNat c) 0 = n := by
  induction fuel with
  | zero => omega
  | succ fuel ih =>
    intro n _ hlt
    by_cases hn : n < 10
    · refine ⟨?_, by simp [natDigitsRev, hn], ?_⟩
      · intro c hc
        simp only [natDigitsRev, if_pos hn, List.mem_singleton] at hc
        subst hc
        exact digitChar_isDigit hn
      · simp [natDigitsRev, hn, digToNat_digitChar hn]
    · have hfuel : 0 < fuel := by
        rcases Nat.eq_zero_or_pos fuel with h0 | h0
        · subst h0; simp at hlt; omega
        · exact h0
      have hdiv : n / 10 < 10 ^ fuel := by
        rw [Nat.div_lt_iff_lt_mul (by omega)]
        calc n < 10 ^ (fuel + 1) := hlt
          _ = 10 ^ fuel * 10 := by ring
      have hih := ih (n / 10) hfuel hdiv
      refine ⟨?_, by simp [natDigitsRev, hn], ?_⟩
      · intro c hc
        simp only [natDigitsRev, if_neg hn, List.mem_cons] at hc
        rcases hc with rfl | hc
        · exact digitChar_isDigit (Nat.mod_lt _ (by omega))
        · exact hih.1 c hc
      · have hmod : digToNat (Nat.digitChar (n % 10)) = n % 10 :=
          digToNat_digitChar (Nat.mod_lt _ (by omega))
        simp only [natDigitsRev, if_neg hn, List.foldr_cons, hih.2.2, hmod]
        omega

theorem natStr_spec (n : Nat) :
    (∀ c ∈ natStr n, c.isDigit = true) ∧ natStr n ≠ [] ∧
      (natStr n).foldl (fun a c => a * 10 + digToNat c) 0 = n := by
  have hpow : n < 10 ^ (n + 1) :=
    lt_of_lt_of_le (Nat.lt_pow_self (by omega) n) (Nat.pow_le_pow_right (by omega) (by omega))
  have h := natDigitsRev_spec (n + 1) n (by omega) hpow
  refine ⟨?_, by simpa [natStr] using h.2.1, ?_⟩
  · intro c hc
    exact h.1 c (by simpa [natStr] using hc)
  · rw [natStr, List.foldl_reverse]
    simpa using h.2.2

theorem parseDigits?_natStr (n : Nat) : parseDigits? (natStr n) = some n := by
  obtain ⟨hd, hne, hval⟩ := natStr_spec n
  rw [parseDigits?, if_pos ⟨hne, by simpa [List.all_eq_true] using hd⟩, hval]

theorem digit_not_ws {c : Char} (h : c.isDigit = true) : isWS c = false := by
  cases hws : isWS c with
  | false => rfl
  | true =>
    exfalso
    simp only [isWS, Char.isWhitespace, Bool.or_eq_true, decide_eq_true_eq] at hws
    have hc : c = ' ' ∨ c = '\t' ∨ c = '\x0d' ∨ c = '\n' := by tauto
    rcases hc with rfl | rfl | rfl | rfl <;> exact absurd h (by decide)

theorem atoi?_natStr (n : Nat) : atoi? (natStr n) = some (n : Int) := by
  obtain ⟨hd, hne, -⟩ := natStr_spec n
  rcases hcase : natStr n with - | ⟨c, cs⟩
  · exact absurd hcase hne
  · have hc : c.isDigit = true := hd c (by rw [hcase]; exact List.mem_cons_self c cs)
    have h1 : c ≠ '-' := by rintro rfl; exact absurd hc (by decide)
    have h2 : c ≠ '+' := by rintro rfl; exact absurd hc (by decide)
    rw [atoi?, if_neg h1, if_neg h2, ← hcase, parseDigits?_natStr]
    rfl

theorem atoi?_intStr (v : Int) : atoi? (intStr v) = some v := by
  cases v with
  | ofNat n => exact atoi?_natStr n
  | negSucc m =>
    show atoi? ('-' :: natStr (m + 1)) = some (Int.negSucc m)
    rw [atoi?, if_pos rfl, parseDigits?_natStr]
    simp [Int.negSucc_eq]

theorem intStr_ne_nil (v : Int) : intStr v ≠ [] := by
  cases v with
  | ofNat n => exact (natStr_spec n).2.1
  | negSucc m => simp [intStr]

theorem intStr_no_ws (v : Int) : ∀ c ∈ intStr v, isWS c = false := by
  cases v with
  | ofNat n => exact fun c hc => digit_not_ws ((natStr_spec n).1 c hc)
  | negSucc m =>
    intro c hc
    rcases List.mem_cons.mp hc with rfl | hc
    · decide
    · exact digit_not_ws ((natStr_spec (m + 1)).1 c hc)

theorem validName_intStr (v : Int) : validName (intStr v) :=
  ⟨intStr_ne_nil v, fun c hc => by simp [intStr_no_ws v c hc]⟩

theorem alookup_eq_none {κ β : Type} [DecidableEq κ] (m : List (κ × β)) (k : κ)
    (h : k ∉ akeys m) : alookup m k = none := by
  induction m with
  | nil => rfl
  | cons p rest ih =>
    have hne : p.1 ≠ k := by
      rintro rfl
      exact h (by simp [akeys])
    rw [show alookup (p :: rest) k = if p.1 = k then some p.2 else alookup rest k from by
      rw [alookup]]
    rw [if_neg hne]
    exact ih (fun hk => h (by simp [akeys] at hk ⊢; exact Or.inr hk))

theorem ainsert_of_not_mem {κ β : Type} [DecidableEq κ] (m : List (κ × β)) (k : κ) (v : β)
    (h : k ∉ akeys m) : ainsert m k v = m ++ [(k, v)] := by
  induction m with
  | nil => rfl
  | cons p rest ih =>
    have hne : p.1 ≠ k := by
      rintro rfl
      exact h (by simp [akeys])
    rw [show ainsert (p :: rest) k v =
        if p.1 = k then (p.1, v) :: rest else p :: ainsert rest k v from by rw [ainsert]]
    rw [if_neg hne, ih (fun hk => h (by simp [akeys] at hk ⊢; exact Or.inr hk))]
    rfl

theorem alookup_append_of_none {κ β : Type} [DecidableEq κ] (m l : List (κ × β)) (k : κ)
    (h : alookup m k = none) : alookup (m ++ l) k = alookup l k := by
  induction m with
  | nil => rfl
  | cons p rest ih =>
    rw [show alookup (p :: rest) k = if p.1 = k then some p.2 else alookup rest k from by
      rw [alookup]] at h
    by_cases hp : p.1 = k
    · rw [if_pos hp] at h; exact absurd h (by simp)
    · rw [if_neg hp] at h
      show (if p.1 = k then some p.2 else alookup (rest ++ l) k) = alookup l k
      rw [if_neg hp]
      exact ih h

theorem alookup_ainsert_self {κ β : Type} [DecidableEq κ] (m : List (κ × β)) (k : κ) (v : β) :
    alookup (ainsert m k v) k = some v := by
  induction m with
  | nil => simp [ainsert, alookup]
  | cons p rest ih =>
    by_cases hp : p.1 = k
    · simp [ainsert, hp, alookup]
    · simp [ainsert, hp, alookup, ih]

theorem alookup_ainsert_ne {κ β : Type} [DecidableEq κ] (m : List (κ × β)) (k k' : κ) (v : β)
    (h : k' ≠ k) : alookup (ainsert m k v) k' = alookup m k' := by
  have hne : k = k' → False := fun hh => h hh.symm
  induction m with
  | nil =>
    show (if k = k' then some v else (none : Option β)) = (none : Option β)
    rw [if_neg hne]
  | cons p rest ih =>
    obtain ⟨pk, pv⟩ := p
    by_cases hp : pk = k
    · subst hp
      show alookup (if pk = pk then (pk, v) :: rest else (pk, pv) :: ainsert rest pk v) k' = _
      rw [if_pos rfl, alookup, alookup, if_neg hne, if_neg hne]
    · show alookup (if pk = k then (pk, v) :: rest else (pk, pv) :: ainsert rest k v) k' = _
      rw [if_neg hp, alookup, alookup, ih]

theorem splitAt6_append (a rest : Str) (h : '6' ∉ a) :
    splitAt6 (a ++ '6' :: rest) = some (a ++ ['6'], rest) := by
  induction a with
  | nil => simp [splitAt6]
  | cons c a ih =>
    have hc : c ≠ '6' := fun hh => h (by simp [hh])
    show splitAt6 (c :: (a ++ '6' :: rest)) = _
    rw [show splitAt6 (c :: (a ++ '6' :: rest)) =
        (if c = '6' then some ([c], a ++ '6' :: rest)
         else (splitAt6 (a ++ '6' :: rest)).map (fun p => (c :: p.1, p.2))) from by
      rw [splitAt6]]
    rw [if_neg hc, ih (fun hh => h (List.mem_cons_of_mem _ hh))]
    simp

theorem splitAt6_of_not_mem (s : Str) (h : '6' ∉ s) : splitAt6 s = none := by
  induction s with
  | nil => rfl
  | cons c s ih =>
    have hc : c ≠ '6' := fun hh => h (by simp [hh])
    rw [show splitAt6 (c :: s) =
        (if c = '6' then some ([c], s)
         else (splitAt6 s).map (fun p => (c :: p.1, p.2))) from by rw [splitAt6]]
    rw [if_neg hc, ih (fun hh => h (List.mem_cons_of_mem _ hh))]
    rfl

theorem goTrim_of_ends (s : Str) (h1 : ∀ c, s.head? = some c → isWS c = false)
    (h2 : ∀ c, s.getLast? = some c → isWS c = false) : goTrim s = s := by
  have hdrop : s.dropWhile isWS = s := by
    cases s with
    | nil => rfl
    | cons c rest =>
      rw [List.dropWhile_cons, if_neg]
      rw [h1 c rfl]
      simp
  rw [goTrim, hdrop]
  have hdrop2 : s.reverse.dropWhile isWS = s.reverse := by
    cases hrev : s.reverse with
    | nil => rfl
    | cons c rest =>
      rw [List.dropWhile_cons, if_neg]
      have : s.getLast? = some c := by
        rw [← List.head?_reverse, hrev, List.head?_cons]
      rw [h2 c this]
      simp
  rw [hdrop2, List.reverse_reverse]

/-! ## Round-trip lemmas for the two parsers -/

theorem akeys_nil {κ β : Type} : akeys ([] : List (κ × β)) = [] := rfl

theorem akeys_cons {κ β : Type} (p : κ × β) (rest : List (κ × β)) :
    akeys (p :: rest) = p.1 :: akeys rest := rfl

theorem akeys_append {κ β : Type} (a b : List (κ × β)) :
    akeys (a ++ b) = akeys a ++ akeys b := List.map_append _ a b

theorem buildCounters_step (cs : Counters) : ∀ acc : Counters,
    (akeys cs).Nodup → (∀ k ∈ akeys cs, k ∉ akeys acc) →
    List.foldl
      (fun acc p =>
        match atoi? p.2 with
        | some v => ainsert acc p.1 v
        | none => acc)
      acc (cs.map (fun c => (c.1, intStr c.2))) = acc ++ cs := by
  induction cs with
  | nil => intro acc _ _; simp
  | cons c rest ih =>
    intro acc hnd hdisj
    obtain ⟨ck, cv⟩ := c
    rw [akeys_cons] at hnd hdisj
    simp only [List.map_cons, List.foldl_cons, atoi?_intStr]
    rw [ainsert_of_not_mem acc ck cv (hdisj ck (List.mem_cons_self _ _))]
    rw [ih (acc ++ [(ck, cv)]) hnd.of_cons ?_]
    · simp
    · intro k hk hka
      rw [akeys_append] at hka
      rcases List.mem_append.mp hka with h1 | h1
      · exact hdisj k (List.mem_cons_of_mem _ hk) h1
      · have hkck : k = ck := by simpa [akeys] using h1
        subst hkck
        exact (List.nodup_cons.mp hnd).1 hk

theorem buildCounters_render (cs : Counters) (hnd : (akeys cs).Nodup) :
    buildCounters (cs.map (fun c => (c.1, intStr c.2))) = cs := by
  have h := buildCounters_step cs [] hnd (by simp [akeys_nil])
  simpa [buildCounters] using h

theorem validName_colon (sec : Str) (h : validName sec) : validName (sec ++ [':']) := by
  refine ⟨by simp, ?_⟩
  intro c hc
  rcases List.mem_append.mp hc with hc | hc
  · exact h.2 c hc
  · simp only [List.mem_singleton] at hc
    subst hc
    decide

theorem parseSectionCouple_render (sec : Str) (cs : Counters)
    (hsec : validName sec) (hnd : (akeys cs).Nodup) (hcs : ∀ c ∈ cs, validName c.1) :
    parseSectionCouple (unwords ((sec ++ [':']) :: cs.map (·.1)))
        (unwords ((sec ++ [':']) :: cs.map (fun c => intStr c.2))) = .ok (sec, cs) := by
  have hhf : goFields (unwords ((sec ++ [':']) :: cs.map (·.1))) =
      (sec ++ [':']) :: cs.map (·.1) := by
    refine goFields_unwords _ ?_
    intro t ht
    rcases List.mem_cons.mp ht with rfl | ht
    · exact validName_colon sec hsec
    · obtain ⟨c, hc, rfl⟩ := List.mem_map.mp ht
      exact hcs c hc
  have hvf : goFields (unwords ((sec ++ [':']) :: cs.map (fun c => intStr c.2))) =
      (sec ++ [':']) :: cs.map (fun c => intStr c.2) := by
    refine goFields_unwords _ ?_
    intro t ht
    rcases List.mem_cons.mp ht with rfl | ht
    · exact validName_colon sec hsec
    · obtain ⟨c, hc, rfl⟩ := List.mem_map.mp ht
      exact validName_intStr c.2
  rw [parseSectionCouple, hhf, hvf]
  show (if (sec ++ [':']) = (sec ++ [':']) then
      Except.ok (trimSuffix (sec ++ [':']) [':'],
        buildCounters ((cs.map (·.1)).zip (cs.map (fun c => intStr c.2))))
    else Except.error ()) = Except.ok (sec, cs)
  rw [if_pos rfl, trimSuffix_append, List.zip_map', buildCounters_render cs hnd]

theorem parse2LAux_render (m : CounterMap) : ∀ acc : CounterMap, valid2L m →
    (∀ k ∈ akeys m, k ∉ akeys acc) → parse2LAux acc (render2L m) = acc ++ m := by
  induction m with
  | nil => intro acc _ _; simp [render2L, parse2LAux]
  | cons s rest ih =>
    intro acc hv hdisj
    obtain ⟨sec, cs⟩ := s
    obtain ⟨hnd, hall⟩ := hv
    rw [akeys_cons] at hnd hdisj
    have hsec : validName sec := (hall (sec, cs) (by simp)).1
    have hcnd : (akeys cs).Nodup := (hall (sec, cs) (by simp)).2.1
    have hcv : ∀ c ∈ cs, validName c.1 := (hall (sec, cs) (by simp)).2.2
    show parse2LAux acc
        (unwords ((sec ++ [':']) :: cs.map (·.1)) ::
          unwords ((sec ++ [':']) :: cs.map (fun c => intStr c.2)) :: render2L rest) = _
    rw [parse2LAux, parseSectionCouple_render sec cs hsec hcnd hcv]
    show parse2LAux (ainsert acc sec cs) (render2L rest) = acc ++ (sec, cs) :: rest
    rw [ainsert_of_not_mem acc sec cs (hdisj sec (List.mem_cons_self _ _))]
    rw [ih (acc ++ [(sec, cs)]) ?_ ?_]
    · simp
    · exact ⟨hnd.of_cons, fun s hs => hall s (List.mem_cons_of_mem _ hs)⟩
    · intro k hk hka
      rw [akeys_append] at hka
      rcases List.mem_append.mp hka with h1 | h1
      · exact hdisj k (List.mem_cons_of_mem _ hk) h1
      · have hksec : k = sec := by simpa [akeys] using h1
        subst hksec
        exact (List.nodup_cons.mp hnd).1 hk

theorem parse2L_roundtrip (m : CounterMap) (h : valid2L m) :
    parse2LFromScanner (render2L m) = m := by
  have := parse2LAux_render m [] h (by simp [akeys_nil])
  simpa [parse2LFromScanner] using this

/-! ## Six-separated parser: line and round-trip lemmas -/

theorem parseSnmp6Line_split (a b : Str) (v : Int) (h6 : '6' ∉ a)
    (ha : ∀ c, a.head? = some c → isWS c = false) (hb : validName b) :
    parseSnmp6Line (a ++ '6' :: (b ++ ' ' :: intStr v)) = .ok (a ++ ['6'], b, v) := by
  have hpost : (b ++ ' ' :: intStr v) ≠ [] := by cases b <;> simp
  have htrimpost : goTrim (b ++ ' ' :: intStr v) = b ++ ' ' :: intStr v := by
    refine goTrim_of_ends _ ?_ ?_
    · intro c hc
      obtain ⟨b0, brest⟩ := hb
      cases b with
      | nil => exact absurd rfl b0
      | cons x xs =>
        simp only [List.cons_append, List.head?_cons, Option.some_inj] at hc
        subst hc
        simpa using brest x (List.mem_cons_self _ _)
    · intro c hc
      rw [List.getLast?_append_cons, ← List.singleton_append,
        List.getLast?_append_of_ne_nil _ (intStr_ne_nil v)] at hc
      have hmem : c ∈ intStr v := by
        obtain ⟨hne, rfl⟩ :=
          List.mem_getLast?_eq_getLast (show c ∈ (intStr v).getLast? from hc)
        exact List.getLast_mem hne
      exact intStr_no_ws v c hmem
  have htrimpre : goTrim (a ++ ['6']) = a ++ ['6'] := by
    refine goTrim_of_ends _ ?_ ?_
    · intro c hc
      cases a with
      | nil =>
        simp only [List.nil_append, List.head?_cons, Option.some_inj] at hc
        subst hc
        decide
      | cons x xs =>
        simp only [List.cons_append, List.head?_cons, Option.some_inj] at hc
        subst hc
        exact ha x rfl
    · intro c hc
      rw [List.getLast?_concat] at hc
      have hc6 : c = '6' := by simpa using hc.symm
      subst hc6
      decide
  have hfields : goFields (b ++ ' ' :: intStr v) = [b, intStr v] := by
    have h2 := goFields_unwords [b, intStr v] ?_
    · simpa [unwords] using h2
    · intro t ht
      rcases List.mem_cons.mp ht with rfl | ht
      · exact hb
      · rcases List.mem_cons.mp ht with rfl | ht
        · exact validName_intStr v
        · simp at ht
  simp only [parseSnmp6Line, splitAt6_append a _ h6, if_neg hpost, htrimpost, hfields,
    htrimpre, atoi?_intStr]

theorem ainsert_append_last {κ β : Type} [DecidableEq κ] (m : List (κ × β)) (k : κ) (x y : β)
    (h : k ∉ akeys m) : ainsert (m ++ [(k, x)]) k y = m ++ [(k, y)] := by
  induction m with
  | nil =>
    show (if k = k then (k, y) :: [] else (k, x) :: ainsert [] k y) = [(k, y)]
    rw [if_pos rfl]
  | cons p rest ih =>
    obtain ⟨pk, pv⟩ := p
    rw [akeys_cons] at h
    have hne : pk ≠ k := fun hh => h (hh ▸ List.mem_cons_self _ _)
    show (if pk = k then (pk, y) :: (rest ++ [(k, x)])
      else (pk, pv) :: ainsert (rest ++ [(k, x)]) k y) = (pk, pv) :: (rest ++ [(k, y)])
    rw [if_neg hne, ih (fun hh => h (List.mem_cons_of_mem _ hh))]

theorem insertV6_new (m : CounterMap) (sec c : Str) (v : Int) (h : sec ∉ akeys m) :
    insertV6 m sec c v = m ++ [(sec, [(c, v)])] := by
  rw [insertV6, alookup_eq_none m sec h]
  rfl

theorem insertV6_existing (m1 : CounterMap) (sec : Str) (cs : Counters) (c : Str) (v : Int)
    (h : sec ∉ akeys m1) :
    insertV6 (m1 ++ [(sec, cs)]) sec c v = m1 ++ [(sec, ainsert cs c v)] := by
  rw [insertV6, alookup_append_of_none m1 _ sec (alookup_eq_none m1 sec h)]
  rw [show alookup [(sec, cs)] sec = some cs from by rw [alookup, if_pos rfl]]
  exact ainsert_append_last m1 sec cs (ainsert cs c v) h

theorem parseV6_fold_section (sec : Str)
    (hline : ∀ (b : Str) (v : Int), validName b →
      parseSnmp6Line (sec ++ (b ++ ' ' :: intStr v)) = .ok (sec, b, v)) (cs2 : Counters) :
    ∀ (cs1 : Counters) (m1 : CounterMap),
      sec ∉ akeys m1 → (akeys cs2).Nodup → (∀ k ∈ akeys cs2, k ∉ akeys cs1) →
      (∀ c ∈ cs2, validName c.1) →
      List.foldl parseV6Step (m1 ++ [(sec, cs1)])
        (cs2.map (fun c => sec ++ c.1 ++ ' ' :: intStr c.2)) = m1 ++ [(sec, cs1 ++ cs2)] := by
  induction cs2 with
  | nil => intro cs1 m1 _ _ _ _; simp
  | cons c rest ih =>
    intro cs1 m1 hm hnd hdisj hv
    rw [akeys_cons] at hnd hdisj
    simp only [List.map_cons, List.foldl_cons]
    rw [parseV6Step, List.append_assoc, hline c.1 c.2 (hv c (List.mem_cons_self _ _))]
    show List.foldl parseV6Step (insertV6 (m1 ++ [(sec, cs1)]) sec c.1 c.2)
      (rest.map (fun c => sec ++ c.1 ++ ' ' :: intStr c.2)) = _
    rw [insertV6_existing m1 sec cs1 c.1 c.2 hm]
    rw [ainsert_of_not_mem cs1 c.1 c.2 (hdisj c.1 (List.mem_cons_self _ _))]
    rw [ih (cs1 ++ [(c.1, c.2)]) m1 hm hnd.of_cons ?_ (fun d hd => hv d (List.mem_cons_of_mem _ hd))]
    · simp
    · intro k hk hka
      rw [akeys_append] at hka
      rcases List.mem_append.mp hka with h1 | h1
      · exact hdisj k (List.mem_cons_of_mem _ hk) h1
      · have hkc : k = c.1 := by simpa [akeys] using h1
        subst hkc
        exact (List.nodup_cons.mp hnd).1 hk

theorem parseV6_render_aux (m : CounterMap) : ∀ m1 : CounterMap, validV6 m →
    (∀ k ∈ akeys m, k ∉ akeys m1) →
    List.foldl parseV6Step m1 (renderV6 m) = m1 ++ m := by
  induction m with
  | nil => intro m1 _ _; simp [renderV6]
  | cons s rest ih =>
    intro m1 hv hdisj
    obtain ⟨sec, cs⟩ := s
    obtain ⟨⟨hnd, hall⟩, hsix⟩ := hv
    rw [akeys_cons] at hnd hdisj
    have hsecv : validName sec := (hall (sec, cs) (by simp)).1
    have hcnd : (akeys cs).Nodup := (hall (sec, cs) (by simp)).2.1
    have hcv : ∀ c ∈ cs, validName c.1 := (hall (sec, cs) (by simp)).2.2
    have hcs_ne : cs ≠ [] := (hsix (sec, cs) (by simp)).1
    have hlast : sec.getLast? = some '6' := (hsix (sec, cs) (by simp)).2.1
    have hdrop6 : '6' ∉ sec.dropLast := (hsix (sec, cs) (by simp)).2.2
    have hsecne : sec ≠ [] := hsecv.1
    have hseceq : sec.dropLast ++ ['6'] = sec := by
      have h1 := List.dropLast_append_getLast hsecne
      have h2 : sec.getLast hsecne = '6' := by
        have h3 := List.getLast?_eq_getLast sec hsecne
        rw [hlast] at h3
        exact (Option.some_inj.mp h3).symm
      rw [← h2]
      exact h1
    have hline : ∀ (b : Str) (v : Int), validName b →
        parseSnmp6Line (sec ++ (b ++ ' ' :: intStr v)) = .ok (sec, b, v) := by
      intro b v hb
      have hh := parseSnmp6Line_split sec.dropLast b v hdrop6 ?_ hb
      · rw [show sec.dropLast ++ '6' :: (b ++ ' ' :: intStr v) =
            (sec.dropLast ++ ['6']) ++ (b ++ ' ' :: intStr v) from by simp] at hh
        rw [hseceq] at hh
        exact hh
      · intro c hc
        have hcm : c ∈ sec.dropLast := List.mem_of_mem_head? hc
        have : c ∈ sec := List.dropLast_subset sec hcm
        simpa using hsecv.2 c this
    show List.foldl parseV6Step m1
        ((cs.map fun c => sec ++ c.1 ++ ' ' :: intStr c.2) ++ renderV6 rest) = _
    rw [List.foldl_append]
    cases cs with
    | nil => exact absurd rfl hcs_ne
    | cons c0 cs' =>
      rw [akeys_cons] at hcnd
      simp only [List.map_cons, List.foldl_cons]
      rw [parseV6Step, List.append_assoc, hline c0.1 c0.2 (hcv c0 (List.mem_cons_self _ _))]
      show List.foldl parseV6Step
          (List.foldl parseV6Step (insertV6 m1 sec c0.1 c0.2)
            (cs'.map fun c => sec ++ c.1 ++ ' ' :: intStr c.2)) (renderV6 rest) = _
      rw [insertV6_new m1 sec c0.1 c0.2 (hdisj sec (List.mem_cons_self _ _))]
      rw [show (m1 ++ [(sec, [(c0.1, c0.2)])] : CounterMap) =
          m1 ++ [(sec, [c0])] from by simp]
      rw [parseV6_fold_section sec hline cs' [c0] m1 (hdisj sec (List.mem_cons_self _ _))
        hcnd.of_cons ?_ (fun d hd => hcv d (List.mem_cons_of_mem _ hd))]
      · rw [ih (m1 ++ [(sec, [c0] ++ cs')]) ⟨⟨hnd.of_cons, fun s hs =>
            hall s (List.mem_cons_of_mem _ hs)⟩, fun s hs => hsix s (List.mem_cons_of_mem _ hs)⟩ ?_]
        · simp
        · intro k hk hka
          rw [akeys_append] at hka
          rcases List.mem_append.mp hka with h1 | h1
          · exact hdisj k (List.mem_cons_of_mem _ hk) h1
          · have hksec : k = sec := by simpa [akeys] using h1
            subst hksec
            exact (List.nodup_cons.mp hnd).1 hk
      · intro k hk hka
        have hkc : k = c0.1 := by simpa [akeys] using hka
        subst hkc
        exact (List.nodup_cons.mp hcnd).1 hk

theorem parseV6_roundtrip (m : CounterMap) (h : validV6 m) :
    parseV6FromScanner (renderV6 m) = m := by
  have := parseV6_render_aux m [] h (by simp [akeys_nil])
  simpa [parseV6FromScanner] using this

/-! ## Six-separated parser: dropped-line lemmas -/

theorem parseSnmp6Line_no_six (line : Str) (h : '6' ∉ line) :
    parseSnmp6Line line = .error () := by
  rw [parseSnmp6Line, splitAt6_of_not_mem line h]

theorem parseSnmp6Line_final_six (a : Str) (h : '6' ∉ a) :
    parseSnmp6Line (a ++ ['6']) = .error () := by
  have hs : splitAt6 (a ++ '6' :: []) = some (a ++ ['6'], []) := splitAt6_append a [] h
  rw [parseSnmp6Line, hs]
  rfl

theorem parseSnmp6Line_bad_fields (a rest : Str) (h : '6' ∉ a) (hne : rest ≠ [])
    (hf : (goFields (goTrim rest)).length ≠ 2) :
    parseSnmp6Line (a ++ '6' :: rest) = .error () := by
  simp only [parseSnmp6Line, splitAt6_append a rest h, if_neg hne]
  rcases hg : goFields (goTrim rest) with - | ⟨x, - | ⟨y, - | ⟨z, zs⟩⟩⟩ <;>
    rw [hg] at hf <;> simp at hf ⊢

theorem parseSnmp6Line_bad_value (a rest b w : Str) (h : '6' ∉ a) (hne : rest ≠ [])
    (hf : goFields (goTrim rest) = [b, w]) (hv : atoi? w = none) :
    parseSnmp6Line (a ++ '6' :: rest) = .error () := by
  simp only [parseSnmp6Line, splitAt6_append a rest h, if_neg hne, hf, hv]

theorem parseV6Step_error (m : CounterMap) (l : Str) (h : parseSnmp6Line l = .error ()) :
    parseV6Step m l = m := by
  rw [parseV6Step, h]

theorem parseV6_skip (pre post : List Str) (bad : Str) (h : parseSnmp6Line bad = .error ()) :
    parseV6FromScanner (pre ++ bad :: post) = parseV6FromScanner (pre ++ post) := by
  rw [parseV6FromScanner, parseV6FromScanner, List.foldl_append, List.foldl_append,
    List.foldl_cons, parseV6Step_error _ bad h]

/-! ## Socket-state tally lemmas -/

theorem alookup_append_some {κ β : Type} [DecidableEq κ] (m l : List (κ × β)) (k : κ) (v : β)
    (h : alookup m k = some v) : alookup (m ++ l) k = some v := by
  induction m with
  | nil => exact absurd h (by simp [alookup])
  | cons p rest ih =>
    obtain ⟨pk, pv⟩ := p
    show (if pk = k then some pv else alookup (rest ++ l) k) = some v
    rw [show alookup ((pk, pv) :: rest) k = if pk = k then some pv else alookup rest k
      from by rw [alookup]] at h
    by_cases hp : pk = k
    · rw [if_pos hp] at h ⊢; exact h
    · rw [if_neg hp] at h ⊢; exact ih h

theorem alookup_bumpStat (stats : SocketStats) (name state : Str) :
    alookup (bumpStat stats name) state =
      if state = name then some ((alookup stats state).getD 0 + 1)
      else alookup stats state := by
  rw [bumpStat]
  rcases hl : alookup stats name with - | n
  · by_cases hs : state = name
    · subst hs
      rw [if_pos rfl, hl]
      rw [alookup_append_of_none stats _ state hl]
      rw [show alookup [(state, (1 : Nat))] state = some 1 from by rw [alookup, if_pos rfl]]
      rfl
    · rw [if_neg hs]
      rcases hs' : alookup stats state with - | v
      · rw [alookup_append_of_none stats _ state hs']
        rw [show alookup [(name, (1 : Nat))] state = none from by
          rw [alookup, if_neg (fun hh => hs hh.symm)]
          rfl]
      · exact alookup_append_some stats _ state v hs'
  · by_cases hs : state = name
    · subst hs
      rw [if_pos rfl, hl, alookup_ainsert_self]
      rfl
    · rw [if_neg hs, alookup_ainsert_ne stats name state (n + 1) hs]

theorem skStates_get_of_le {u : Nat} (h : u ≤ 11) : ∃ name, skStates.get? u = some name := by
  interval_cases u <;> exact ⟨_, rfl⟩

theorem parseSocktabLines_count (lines : List Str) : ∀ stats : SocketStats,
    (∀ l ∈ lines, goodSockLine l) → ∀ state : Str,
    (parseSocktabLines stats lines).count state =
      some ((alookup stats state).getD 0 +
        (lines.filter (fun l => lineStateName l = some state)).length) := by
  induction lines with
  | nil =>
    intro stats _ state
    simp [parseSocktabLines, SockResult.count]
  | cons l rest ih =>
    intro stats hgood state
    obtain ⟨hlen, u, hcode, hu⟩ := hgood l (List.mem_cons_self _ _)
    obtain ⟨name, hname⟩ := skStates_get_of_le hu
    have hfs : ¬ ((goFields (l.takeWhile (fun c => c ≠ '#'))).length < 12) := by omega
    have hstep : parseSocktabLines stats (l :: rest) =
        parseSocktabLines (bumpStat stats name) rest := by
      rw [parseSocktabLines]
      simp only [if_neg hfs]
      rw [show ((goFields (l.takeWhile (fun c => c ≠ '#'))).get? 3).bind parseHexU8 =
        lineCode l from rfl, hcode]
      show (match skStates.get? u with
        | none => SockResult.panics
        | some st => parseSocktabLines (bumpStat stats st) rest) = _
      rw [hname]
    rw [hstep, ih (bumpStat stats name) (fun x hx => hgood x (List.mem_cons_of_mem _ hx)) state]
    have hstate : lineStateName l = some name := by
      rw [lineStateName, hcode]
      simpa using hname
    rw [alookup_bumpStat stats name state]
    by_cases hsn : state = name
    · have hp : decide (lineStateName l = some state) = true := by
        rw [hstate, hsn]
        simp
      rw [if_pos hsn]
      simp only [List.filter_cons, hp, if_pos, List.length_cons, Option.getD_some]
      exact congrArg some (by omega)
    · have hp : decide (lineStateName l = some state) = false := by
        rw [hstate]
        simp only [Option.some_inj, decide_eq_false_iff_not]
        exact fun hh => hsn hh.symm
      rw [if_neg hsn]
      simp only [List.filter_cons, hp, Bool.false_eq_true, if_false]

/-! ## Scrape-cache lemmas -/

theorem cacheStep_first {α : Type} (dur : Nat) (collect : List α) (t0 : Nat) :
    cacheStep dur collect ⟨0, []⟩ t0 = (⟨t0, collect⟩, collect, true) := by
  rw [cacheStep, if_pos]
  simp

theorem cacheStep_replay {α : Type} (dur : Nat) (collect : List α) (t0 now : Nat)
    (hc : collect ≠ []) (hnow : now < t0 + dur) :
    cacheStep dur collect ⟨t0, collect⟩ now = (⟨t0, collect⟩, collect, false) := by
  rw [cacheStep, if_neg]
  simp only [Bool.or_eq_true, decide_eq_true_eq, List.isEmpty_iff, not_or]
  exact ⟨by omega, hc⟩

theorem cacheRun_replay {α : Type} (dur : Nat) (collect : List α) (t0 : Nat)
    (hc : collect ≠ []) : ∀ rest : List Nat, (∀ t ∈ rest, t < t0 + dur) →
    cacheRun dur collect ⟨t0, collect⟩ rest =
      (⟨t0, collect⟩, rest.map (fun _ => collect), 0) := by
  intro rest
  induction rest with
  | nil => intro _; rfl
  | cons t ts ih =>
    intro hall
    rw [cacheRun, cacheStep_replay dur collect t0 t hc (hall t (List.mem_cons_self _ _))]
    rw [ih (fun x hx => hall x (List.mem_cons_of_mem _ hx))]
    simp

theorem cacheRun_single {α : Type} (dur : Nat) (collect : List α) (t0 : Nat)
    (rest : List Nat) (hc : collect ≠ []) (hrest : ∀ t ∈ rest, t < t0 + dur) :
    cacheRun dur collect ⟨0, []⟩ (t0 :: rest) =
      (⟨t0, collect⟩, collect :: rest.map (fun _ => collect), 1) := by
  rw [cacheRun, cacheStep_first, cacheRun_replay dur collect t0 hc rest hrest]
  simp

/-! ## Resolver lemmas -/

theorem resolve_orphan (client : K8sClient) (st : ResolverState) (pod : K8sPod)
    (horef : pod.ownerReferences = [])
    (hmiss : alookup st.podCache (generatePodCacheKey pod) = none) :
    ResolvePodControllerRef client st (some pod) =
      (.ok (PodControllerRef.mk orphanSentinel orphanSentinel orphanSentinel pod.nspace
        orphanSentinel), st) := by
  rw [ResolvePodControllerRef, hmiss, horef]
  simp

/-! ## Collector emission lemmas -/

theorem mem_publishProcNet (c : CosanetCollector) (source : String)
    (stats : List (String × List (String × Int))) (info : PodInfo)
    (filter : String → Bool) (s : Sample) :
    s ∈ publishProcNet c source stats info filter → s.labelValues.get? 1 = some info.name := by
  intro hs
  rw [publishProcNet] at hs
  obtain ⟨sec, hsec, hs⟩ := List.mem_flatMap.mp hs
  obtain ⟨mtr, hmtr, hsm⟩ := List.mem_filterMap.mp hs
  by_cases hf : filter (sec.1 ++ "_" ++ mtr.1)
  · rw [if_pos hf] at hsm
    rw [← Option.some_inj.mp hsm]
    rfl
  · rw [if_neg hf] at hsm
    exact absurd hsm (by simp)

theorem mem_collectAndEmitSockStats (c : CosanetCollector) (env : NetNSEnv) (info : PodInfo)
    (p : String) (s : Sample) :
    s ∈ (collectAndEmitSockStats c env info p).1 → s.labelValues.get? 1 = some info.name := by
  intro hs
  rw [collectAndEmitSockStats] at hs
  split at hs
  · rcases h4 : env.sockv4 p with e | s4
    · rw [h4] at hs
      exact absurd hs (by simp)
    · rw [h4] at hs
      rcases h6 : env.sockv6 p with e | s6
      · rw [h6] at hs
        exact absurd hs (by simp)
      · rw [h6] at hs
        simp only [List.mem_append, List.mem_map] at hs
        rcases hs with ⟨q, _, rfl⟩ | ⟨q, _, rfl⟩ <;> rfl
  · exact absurd hs (by simp)

theorem mem_collectStatsInNETNS (c : CosanetCollector) (env : NetNSEnv) (info : PodInfo)
    (s : Sample) :
    s ∈ collectStatsInNETNS c env info → s.labelValues.get? 1 = some info.name := by
  intro hs
  rw [collectStatsInNETNS] at hs
  rcases List.mem_append.mp hs with hs | hs
  · rcases List.mem_append.mp hs with hs | hs
    · rcases List.mem_append.mp hs with hs | hs
      · split at hs
        · simp only [List.mem_cons, List.not_mem_nil, or_false] at hs
          rcases hs with rfl | rfl <;> rfl
        · exact absurd hs (by simp)
      · split at hs
        · obtain ⟨p, _, hp⟩ := List.mem_flatMap.mp hs
          exact mem_collectAndEmitSockStats c env info p s hp
        · exact absurd hs (by simp)
    · split at hs
      · rcases List.mem_append.mp hs with hs | hs
        · exact mem_publishProcNet c "snmp" env.snmp info c.snmpMetricFilter s hs
        · exact mem_publishProcNet c "snmp6" env.snmp6 info c.snmpMetricFilter s hs
      · exact absurd hs (by simp)
  · split at hs
    · exact mem_publishProcNet c "netstat" env.netstat info c.netstatMetricFilter s hs
    · exact absurd hs (by simp)

/-! ## Further helper lemmas for the claims -/

theorem zip_take_min {α β : Type} (ns : List α) : ∀ vs : List β,
    ns.zip vs = (ns.take (min ns.length vs.length)).zip (vs.take (min ns.length vs.length)) := by
  induction ns with
  | nil => intro vs; simp
  | cons n ns ih =>
    intro vs
    cases vs with
    | nil => simp
    | cons v vs =>
      simp only [List.length_cons, Nat.succ_min_succ, List.take_succ_cons, List.zip_cons_cons]
      rw [← ih vs]

theorem parseSectionCouple_tokens (s : Str) (ns vs : List Str)
    (hs : validName s) (hns : ∀ t ∈ ns, validName t) (hvs : ∀ t ∈ vs, validName t) :
    parseSectionCouple (unwords ((s ++ [':']) :: ns)) (unwords ((s ++ [':']) :: vs)) =
      .ok (s, buildCounters (ns.zip vs)) := by
  have hhf : goFields (unwords ((s ++ [':']) :: ns)) = (s ++ [':']) :: ns := by
    refine goFields_unwords _ ?_
    intro t ht
    rcases List.mem_cons.mp ht with rfl | ht
    · exact validName_colon s hs
    · exact hns t ht
  have hvf : goFields (unwords ((s ++ [':']) :: vs)) = (s ++ [':']) :: vs := by
    refine goFields_unwords _ ?_
    intro t ht
    rcases List.mem_cons.mp ht with rfl | ht
    · exact validName_colon s hs
    · exact hvs t ht
  rw [parseSectionCouple, hhf, hvf]
  show (if (s ++ [':']) = (s ++ [':']) then
      Except.ok (trimSuffix (s ++ [':']) [':'], buildCounters (ns.zip vs))
    else Except.error ()) = _
  rw [if_pos rfl, trimSuffix_append]

theorem collectAndEmitSockStats_congr (c : CosanetCollector) (env env' : NetNSEnv)
    (info : PodInfo) (p : String) (h4 : env'.sockv4 p = env.sockv4 p)
    (h6 : env'.sockv6 p = env.sockv6 p) :
    collectAndEmitSockStats c env' info p = collectAndEmitSockStats c env info p := by
  rw [collectAndEmitSockStats, collectAndEmitSockStats, h4, h6]

/-! ## The claims -/

/-- C1 (counterexample): the claim "for an orphan pod all five string
fields of the returned ref equal ORPHAN" is false on the code: for a pod
in namespace `default` with no owner references and no cached entry,
`ResolvePodControllerRef` returns a ref whose `Namespace` field is
`default`, not `ORPHAN` (the other four fields are `ORPHAN` and the
cache is unchanged). -/
theorem c1_counterexample :
    ResolvePodControllerRef (fun _ _ _ => .error ())
        (ResolverState.mk [] [])
        (some (K8sPod.mk "u1" "p1" "default" [] "" "Running" "1")) =
      (.ok (PodControllerRef.mk "ORPHAN" "ORPHAN" "ORPHAN" "default" "ORPHAN"),
        ResolverState.mk [] []) ∧
    ResolvePodControllerRef (fun _ _ _ => .error ())
        (ResolverState.mk [] [])
        (some (K8sPod.mk "u1" "p1" "default" [] "" "Running" "1")) ≠
      (.ok (PodControllerRef.mk "ORPHAN" "ORPHAN" "ORPHAN" "ORPHAN" "ORPHAN"),
        ResolverState.mk [] []) := by
  constructor
  · decide
  · decide

/-- C1 (amended): for every non-nil pod with no owner references and no
cached pod-to-ref entry, `ResolvePodControllerRef` returns without error
a ref whose UID, api-version, kind and name fields equal the sentinel
`ORPHAN` and whose namespace field is the pod's namespace, and it leaves
the resolver state (both caches) unchanged. -/
theorem c1_orphan_uncached (client : K8sClient) (st : ResolverState) (pod : K8sPod)
    (horef : pod.ownerReferences = [])
    (hmiss : alookup st.podCache (generatePodCacheKey pod) = none) :
    ResolvePodControllerRef client st (some pod) =
      (.ok (PodControllerRef.mk orphanSentinel orphanSentinel orphanSentinel pod.nspace
        orphanSentinel), st) :=
  resolve_orphan client st pod horef hmiss

/-- C1 witness: the amended claim evaluated at a concrete pod and a
non-empty cache state. -/
theorem c1_orphan_uncached_witness :
    ResolvePodControllerRef (fun _ _ _ => .error ())
        (ResolverState.mk
          [("pod:other", PodControllerRef.mk "u9" "apps/v1" "Deployment" "ns9" "d9")] [])
        (some (K8sPod.mk "u1" "p1" "default" [] "node-a" "Running" "1")) =
      (.ok (PodControllerRef.mk "ORPHAN" "ORPHAN" "ORPHAN" "default" "ORPHAN"),
        ResolverState.mk
          [("pod:other", PodControllerRef.mk "u9" "apps/v1" "Deployment" "ns9" "d9")] []) :=
  c1_orphan_uncached (fun _ _ _ => .error ())
    (ResolverState.mk
      [("pod:other", PodControllerRef.mk "u9" "apps/v1" "Deployment" "ns9" "d9")] [])
    (K8sPod.mk "u1" "p1" "default" [] "node-a" "Running" "1") (by decide) (by decide)

/-- C4 (code bug): the informer's add handler does not filter by node
name when a node name is configured.  With `Nodename = "node-a"`, an add
event for a Running pod assigned to `node-b` does invoke the resolution
procedure (the claim, the spec and the source comment "If node name is
missing, don't filter on node" all say it must not: `allNodes` is
computed as `opts.Nodename != ""`, inverting the intended test).  The
second conjunct shows the flip side: with no node name configured, every
add event is dropped. -/
theorem c4_add_filter_bug :
    addEventResolves "node-a" (K8sPod.mk "uid-1" "pod-1" "default" [] "node-b" "Running" "1")
      = true ∧
    addEventResolves "" (K8sPod.mk "uid-1" "pod-1" "default" [] "node-b" "Running" "1")
      = false := by
  constructor
  · decide
  · decide

/-- C5 (code bug): `NewResolver` builds the parent (`owner-to-ref`)
cache with `getInt(opts.PodCacheCapacity, 750)` — the `PodCacheCapacity`
field — so with `ParentCacheCapacity = 100` and `PodCacheCapacity = 200`
the parent cache is created with capacity 200, not the configured 100;
`ParentCacheCapacity` is never read. -/
theorem c5_parent_capacity_bug :
    newResolverParentCapacity (ResolverOptions.mk 100 200 "node-a") = 200 ∧
    newResolverParentCapacity (ResolverOptions.mk 100 200 "node-a") ≠ 100 ∧
    newResolverParentCapacity (ResolverOptions.mk 100 0 "node-a") = 750 := by
  refine ⟨?_, ?_, ?_⟩ <;> decide

/-- C2 (counterexample): the claim "every state code outside 1–11
(including 0) maps to UNKNOWN and is counted" is false on the code: a
12-field line whose state field is `0C` (code 12) makes `parseSocktab`
panic — `skStates[12]` indexes past the 12-entry table — so no tally is
produced at all, rather than an `UNKNOWN` count of 1. -/
theorem c2_counterexample :
    parseSocktab
        ["sl local rem st tx rx tr tm retr uid timeout inode".toList,
         "0: 0100007F:0016 00000000:0000 0C 0:0 00:0 0 0 0 0 0 0".toList] =
      SockResult.panics ∧
    (parseSocktab
        ["sl local rem st tx rx tr tm retr uid timeout inode".toList,
         "0: 0100007F:0016 00000000:0000 0C 0:0 00:0 0 0 0 0 0 0".toList]).count
        "UNKNOWN".toList ≠ some 1 := by
  constructor
  · decide
  · decide

/-- C2 (amended): `parseSocktab` tallies each non-header line by field
index 3 parsed as 8-bit hexadecimal, mapping codes 1–11 to the fixed
state names and code 0 to `UNKNOWN`, all of them counted: whenever every
line has at least 12 fields and a state code at most 11, the parse
succeeds and the count of each state name equals the number of lines
mapping to it.  (Codes 12–255 panic on the 12-entry `skStates` table and
codes that are not 8-bit hex abort with an error, instead of counting
`UNKNOWN`.) -/
theorem c2_socktab_tally (hdr : Str) (lines : List Str)
    (hgood : ∀ l ∈ lines, goodSockLine l) (state : Str) :
    (parseSocktab (hdr :: lines)).count state =
      some ((lines.filter (fun l => lineStateName l = some state)).length) := by
  have h := parseSocktabLines_count lines [] hgood state
  rw [show parseSocktab (hdr :: lines) = parseSocktabLines [] lines from rfl, h]
  simp [alookup]

/-- C2 witness: the amended claim evaluated on a three-line table with
state codes `01`, `0A` and `00`. -/
theorem c2_socktab_tally_witness :
    (parseSocktab
        ["sl local rem st tx rx tr tm retr uid timeout inode".toList,
         "0: a b 01 c d e f g h i j".toList,
         "1: a b 0A c d e f g h i j".toList,
         "2: a b 00 c d e f g h i j".toList]).count "UNKNOWN".toList = some 1 := by
  have h := c2_socktab_tally "sl local rem st tx rx tr tm retr uid timeout inode".toList
    ["0: a b 01 c d e f g h i j".toList,
     "1: a b 0A c d e f g h i j".toList,
     "2: a b 00 c d e f g h i j".toList] (by decide) "UNKNOWN".toList
  rw [h]
  decide

/-- C3 (counterexample): the claim "the worker collection runs at most
once for any sequence of requests arriving within `cache_duration`" is
false on the code when the collection produces an empty vector: the loop
re-collects whenever `len(metricsCache) == 0`, so two requests 100
apart with a duration of 500 trigger two collections. -/
theorem c3_counterexample :
    (cacheRun 500 ([] : List Nat) (CacheState.mk 0 []) [0, 100]).2.2 = 2 ∧
    ¬ (cacheRun 500 ([] : List Nat) (CacheState.mk 0 []) [0, 100]).2.2 ≤ 1 := by
  constructor
  · decide
  · decide

/-- C3 (amended): provided the worker collection yields at least one
sample, then for every request sequence in which each later request
arrives less than `cache_duration` after the (single) collection
finished, the worker runs exactly once — for the first request — and
every request is answered by replaying the cached vector.  (If the
collection yields an empty vector, the worker instead reruns on every
request, as the counterexample shows.) -/
theorem c3_cache_single_collection {α : Type} (dur : Nat) (collect : List α)
    (t0 : Nat) (rest : List Nat) (hc : collect ≠ [])
    (hrest : ∀ t ∈ rest, t < t0 + dur) :
    (cacheRun dur collect (CacheState.mk 0 []) (t0 :: rest)).2.2 = 1 ∧
    (cacheRun dur collect (CacheState.mk 0 []) (t0 :: rest)).2.1 =
      (t0 :: rest).map (fun _ => collect) := by
  rw [cacheRun_single dur collect t0 rest hc hrest]
  constructor
  · rfl
  · rfl

/-- C3 witness: three requests at 0, 100 and 400 with duration 500 and a
one-sample collection — one worker run, all three replays identical. -/
theorem c3_cache_single_collection_witness :
    (cacheRun 500 [7] (CacheState.mk 0 ([] : List Nat)) [0, 100, 400]).2.2 = 1 ∧
    (cacheRun 500 [7] (CacheState.mk 0 ([] : List Nat)) [0, 100, 400]).2.1 =
      [[7], [7], [7]] := by
  have h := c3_cache_single_collection 500 [7] 0 [100, 400] (by decide) (by decide)
  exact ⟨h.1, by rw [h.2]; rfl⟩

/-- C6 (counterexample): the round-trip claim fails for the
six-separated parser on a `CounterMap` whose section name contains no
`'6'`: the map `{Tcp ↦ {A ↦ 1}}` has whitespace-free names and an
in-range value, but its rendered line `TcpA 1` is dropped (no `'6'`), so
re-parsing yields the empty map. -/
theorem c6_counterexample :
    valid2L [("Tcp".toList, [("A".toList, (1 : Int))])] ∧
    parseV6FromScanner (renderV6 [("Tcp".toList, [("A".toList, (1 : Int))])]) = [] ∧
    parseV6FromScanner (renderV6 [("Tcp".toList, [("A".toList, (1 : Int))])]) ≠
      [("Tcp".toList, [("A".toList, (1 : Int))])] := by
  refine ⟨?_, ?_, ?_⟩ <;> decide

/-- C6 (amended): parse(render(m)) = m holds for the two-line parser for
every `CounterMap` with distinct, non-empty, whitespace-free names and
in-range values; for the six-separated parser it additionally requires
every section to be non-empty and to carry exactly one `'6'`, as its
final character. -/
theorem c6_roundtrip :
    (∀ m : CounterMap, valid2L m → parse2LFromScanner (render2L m) = m) ∧
    (∀ m : CounterMap, validV6 m → parseV6FromScanner (renderV6 m) = m) :=
  ⟨parse2L_roundtrip, parseV6_roundtrip⟩

/-- C6 witness: both round-trips evaluated on concrete maps. -/
theorem c6_roundtrip_witness :
    valid2L [("Tcp".toList, [("ActiveOpens".toList, (7 : Int)), ("CurrEstab".toList, -3)])] ∧
    parse2LFromScanner (render2L
        [("Tcp".toList, [("ActiveOpens".toList, (7 : Int)), ("CurrEstab".toList, -3)])]) =
      [("Tcp".toList, [("ActiveOpens".toList, (7 : Int)), ("CurrEstab".toList, -3)])] ∧
    validV6 [("Icmp6".toList, [("InMsgs".toList, (2 : Int))])] ∧
    parseV6FromScanner (renderV6 [("Icmp6".toList, [("InMsgs".toList, (2 : Int))])]) =
      [("Icmp6".toList, [("InMsgs".toList, (2 : Int))])] :=
  ⟨by decide,
   c6_roundtrip.1 [("Tcp".toList, [("ActiveOpens".toList, (7 : Int)), ("CurrEstab".toList, -3)])]
     (by decide),
   by decide,
   c6_roundtrip.2 [("Icmp6".toList, [("InMsgs".toList, (2 : Int))])] (by decide)⟩

/-- C7: the six-separated line parser.  (i) A line `<A>6<B> <n>` whose
shown `'6'` is the first of the line (and whose `<A>` does not start
with whitespace, `<B>` is a whitespace-free name, `<n>` a decimal
integer) parses to section `<A>6` — everything up to and including the
first `'6'` — counter `<B>` and value `n`.  Lines (ii) with no `'6'`,
(iii) with `'6'` final, (iv) whose remainder does not split into exactly
two whitespace-separated fields, and (v) whose value does not parse as
an integer are errors, and (vi) an erroring line is dropped by the
scanner loop without affecting the parse of the other lines. -/
theorem c7_snmp6_line_parsing :
    (∀ (a b : Str) (v : Int), '6' ∉ a → (∀ c, a.head? = some c → isWS c = false) →
      validName b →
      parseSnmp6Line (a ++ '6' :: (b ++ ' ' :: intStr v)) = .ok (a ++ ['6'], b, v)) ∧
    (∀ line : Str, '6' ∉ line → parseSnmp6Line line = .error ()) ∧
    (∀ a : Str, '6' ∉ a → parseSnmp6Line (a ++ ['6']) = .error ()) ∧
    (∀ a rest : Str, '6' ∉ a → rest ≠ [] → (goFields (goTrim rest)).length ≠ 2 →
      parseSnmp6Line (a ++ '6' :: rest) = .error ()) ∧
    (∀ a rest b w : Str, '6' ∉ a → rest ≠ [] → goFields (goTrim rest) = [b, w] →
      atoi? w = none → parseSnmp6Line (a ++ '6' :: rest) = .error ()) ∧
    (∀ (pre post : List Str) (bad : Str), parseSnmp6Line bad = .error () →
      parseV6FromScanner (pre ++ bad :: post) = parseV6FromScanner (pre ++ post)) :=
  ⟨parseSnmp6Line_split,
   parseSnmp6Line_no_six,
   parseSnmp6Line_final_six,
   fun a rest h hne hf => parseSnmp6Line_bad_fields a rest h hne hf,
   fun a rest b w h hne hf hv => parseSnmp6Line_bad_value a rest b w h hne hf hv,
   parseV6_skip⟩

/-- C7 witness: the positive conjunct at `Icmp6InMsgs 42` and the
drop conjunct at a `'6'`-free line between two good lines. -/
theorem c7_snmp6_line_parsing_witness :
    parseSnmp6Line ("Icmp".toList ++ '6' :: ("InMsgs".toList ++ ' ' :: intStr 42)) =
      .ok ("Icmp".toList ++ ['6'], "InMsgs".toList, 42) ∧
    parseV6FromScanner
        (["Udp6InDatagrams 999".toList] ++ "TcpA 1".toList :: ["Icmp6InMsgs 42".toList]) =
      parseV6FromScanner (["Udp6InDatagrams 999".toList] ++ ["Icmp6InMsgs 42".toList]) :=
  ⟨c7_snmp6_line_parsing.1 "Icmp".toList "InMsgs".toList 42 (by decide) (by decide) (by decide),
   c7_snmp6_line_parsing.2.2.2.2.2 ["Udp6InDatagrams 999".toList] ["Icmp6InMsgs 42".toList]
     "TcpA 1".toList (by decide)⟩

/-- C8: the host pseudo-sandbox record has the empty string as its pod
name while its namespace, network-namespace path and short name are
`HOST`; consequently every sample a `collectStatsInNETNS` run for it
emits carries the empty string — not `HOST` — as the value of the
`cosanet_pod` label (position 1 of the label tuple). -/
theorem c8_host_pod_label :
    hostPodInfo.name = "" ∧ hostPodInfo.nspace = "HOST" ∧ hostPodInfo.netNSPath = "HOST" ∧
    hostPodInfo.netNSName = "HOST" ∧
    ∀ (c : CosanetCollector) (env : NetNSEnv) (s : Sample),
      s ∈ collectStatsInNETNS c env hostPodInfo → s.labelValues.get? 1 = some "" :=
  ⟨rfl, rfl, rfl, rfl,
   fun c env s hs => mem_collectStatsInNETNS c env hostPodInfo s hs⟩

/-- C8 witness: the host conntrack sample of a concrete collector run
carries the empty pod label. -/
theorem c8_host_pod_label_witness :
    (Sample.mk "cosanet_conntrack_curr" standardLabels ["n1", "", "HOST", "HOST"]
        5).labelValues.get? 1 = some "" :=
  c8_host_pod_label.2.2.2.2
    (CosanetCollector.mk "n1"
      (CosanetCollectorOptions.mk true true false false false "tcp,udp")
      (fun _ => true) (fun _ => true) (fun _ => true))
    (NetNSEnv.mk 5 10 (fun _ => .error ()) (fun _ => .error ()) [] [] [])
    (Sample.mk "cosanet_conntrack_curr" standardLabels ["n1", "", "HOST", "HOST"] 5)
    (by decide)

/-- C9: if reading/parsing the IPv4 table of a protocol fails,
`collectAndEmitSockStats` returns the error with no samples emitted; the
IPv6 table is not consulted (the outcome is the same whatever the v6
environment holds); and the emissions for any other protocol depend
only on that protocol's own tables, so the rest of the scrape is
unaffected. -/
theorem c9_sockstats_v4_error (c : CosanetCollector) (env : NetNSEnv) (info : PodInfo)
    (socktype : String) (h4 : env.sockv4 socktype = .error ()) :
    collectAndEmitSockStats c env info socktype = ([], .error ()) ∧
    (∀ g : String → Except Unit SockStats,
      collectAndEmitSockStats c
        (NetNSEnv.mk env.conntrackEntries env.conntrackMaxEntries env.sockv4 g env.snmp
          env.snmp6 env.netstat) info socktype = ([], .error ())) ∧
    (∀ (env' : NetNSEnv) (p : String), p ≠ socktype →
      env'.sockv4 p = env.sockv4 p → env'.sockv6 p = env.sockv6 p →
      collectAndEmitSockStats c env' info p = collectAndEmitSockStats c env info p) := by
  refine ⟨?_, ?_, ?_⟩
  · rw [collectAndEmitSockStats, h4]
    split
    · rfl
    · rfl
  · intro g
    rw [collectAndEmitSockStats]
    rw [show (NetNSEnv.mk env.conntrackEntries env.conntrackMaxEntries env.sockv4 g env.snmp
      env.snmp6 env.netstat).sockv4 socktype = Except.error () from h4]
    split
    · rfl
    · rfl
  · intro env' p _ h44 h66
    exact collectAndEmitSockStats_congr c env env' info p h44 h66

/-- C9 witness: a concrete environment whose tcp IPv4 table errors while
its IPv6 table would parse — nothing is emitted and the error is
returned. -/
theorem c9_sockstats_v4_error_witness :
    collectAndEmitSockStats
        (CosanetCollector.mk "n1"
          (CosanetCollectorOptions.mk true false false false true "tcp,udp")
          (fun _ => true) (fun _ => true) (fun _ => true))
        (NetNSEnv.mk 0 0 (fun _ => .error ()) (fun _ => .ok [("LISTEN", 3)]) [] [] [])
        (PodInfo.mk 4242 "p1" "default" "/var/run/netns/x" "x") "tcp" =
      ([], .error ()) :=
  (c9_sockstats_v4_error
    (CosanetCollector.mk "n1"
      (CosanetCollectorOptions.mk true false false false true "tcp,udp")
      (fun _ => true) (fun _ => true) (fun _ => true))
    (NetNSEnv.mk 0 0 (fun _ => .error ()) (fun _ => .ok [("LISTEN", 3)]) [] [] [])
    (PodInfo.mk 4242 "p1" "default" "/var/run/netns/x" "x") "tcp" rfl).1

/-- C10: in the two-line parser, a matched header/value pair built from
token lists `ns` and `vs` of any (possibly different) lengths parses
without error to the section with exactly the counters paired
positionally — `List.zip` truncates to the positions present in both
lines, so the extra trailing names or values of the longer line are
silently ignored (the parse equals the parse of the two lines truncated
to their common length), and only pairs with valid integer values are
kept. -/
theorem c10_section_couple_truncates (s : Str) (ns vs : List Str)
    (hs : validName s) (hns : ∀ t ∈ ns, validName t) (hvs : ∀ t ∈ vs, validName t) :
    parseSectionCouple (unwords ((s ++ [':']) :: ns)) (unwords ((s ++ [':']) :: vs)) =
      .ok (s, buildCounters (ns.zip vs)) ∧
    parseSectionCouple (unwords ((s ++ [':']) :: ns)) (unwords ((s ++ [':']) :: vs)) =
      parseSectionCouple
        (unwords ((s ++ [':']) :: ns.take (min ns.length vs.length)))
        (unwords ((s ++ [':']) :: vs.take (min ns.length vs.length))) := by
  have h1 := parseSectionCouple_tokens s ns vs hs hns hvs
  have h2 := parseSectionCouple_tokens s (ns.take (min ns.length vs.length))
    (vs.take (min ns.length vs.length)) hs
    (fun t ht => hns t (List.take_subset _ _ ht))
    (fun t ht => hvs t (List.take_subset _ _ ht))
  refine ⟨h1, ?_⟩
  rw [h1, h2, ← zip_take_min]

/-- C10 witness: three names against two values — the third name is
ignored, the non-integer second value is skipped, the section parses
without error. -/
theorem c10_section_couple_truncates_witness :
    parseSectionCouple
        (unwords (("TcpExt".toList ++ [':']) :: ["A".toList, "B".toList, "C".toList]))
        (unwords (("TcpExt".toList ++ [':']) :: ["7".toList, "x".toList])) =
      .ok ("TcpExt".toList, buildCounters
        (["A".toList, "B".toList, "C".toList].zip ["7".toList, "x".toList])) ∧
    buildCounters (["A".toList, "B".toList, "C".toList].zip ["7".toList, "x".toList]) =
      [("A".toList, 7)] :=
  ⟨(c10_section_couple_truncates "TcpExt".toList ["A".toList, "B".toList, "C".toList]
      ["7".toList, "x".toList] (by decide) (by decide) (by decide)).1,
   by decide⟩
